import Mathlib

/-!
Verification of the distarray execution-context and remote-reference
lifecycle subsystem (`distarray/context.py`, `distarray/dist/functions.py`).

Remote key names are modelled as `List Char` (Python strings), the remote
namespace of one engine as the list of its global names, and each remote
operation issued through the pool as a constructor of `RemoteOp`.  Python
exceptions are modelled by `PyErr`; fallible methods return, next to the
list of remote operations they issued before returning or raising, an
`Except PyErr` result.
-/

namespace DistArraySpec

/-- Lowercase hexadecimal digits, the alphabet of `uuid.uuid4().hex`. -/
def hexChars : List Char := "0123456789abcdef".toList

/-- `c` is a lowercase hexadecimal digit. -/
def isHexDigit (c : Char) : Bool := hexChars.contains c

/-- The single underscore joining the components of a key name. -/
def usc : List Char := "_".toList

/-- `Context._key_base`: `base = '__distarray_'`. -/
def distarrayBase : List Char := "__distarray_".toList

/-- The `'comm'` prefix protecting the group-handle key. -/
def commTag : List Char := "comm".toList

/-- `Context._key_base(prefix)`: `'__distarray_'`, or `'__distarray_' + '_' + prefix`. -/
def key_base (pfx : Option (List Char)) : List Char :=
  match pfx with
  | none => distarrayBase
  | some p => distarrayBase ++ (usc ++ p)

/-- `Context._key_header(prefix)`: `self._key_base(prefix) + '_' + self.key_context`,
where `key_context = uuid.uuid4().hex[:16]`. -/
def key_header (pfx : Option (List Char)) (key_context : List Char) : List Char :=
  key_base pfx ++ (usc ++ key_context)

/-- `Context._generate_key(prefix)`: `self._key_header(prefix) + '_' + uuid.uuid4().hex`. -/
def generate_key (pfx : Option (List Char)) (key_context uid : List Char) : List Char :=
  key_header pfx key_context ++ (usc ++ uid)

/-- The constant 13-character run `'__distarray__'` that opens every
un-prefixed key header. -/
def pre13 : List Char := "__distarray__".toList

/-- The run `'comm_'` that follows `'__distarray__'` in a comm-key name. -/
def commMark : List Char := "comm_".toList

/-- The constant 18-character run `'__distarray__comm_'` that opens every
comm-key header. -/
def preComm : List Char := "__distarray__comm_".toList

theorem hdr_none_eq (ctx : List Char) : key_header none ctx = pre13 ++ ctx := rfl

theorem gen_none_eq (ctx uid : List Char) :
    generate_key none ctx uid = pre13 ++ (ctx ++ (usc ++ uid)) := rfl

theorem hdr_comm_eq (ctx : List Char) :
    key_header (some commTag) ctx = preComm ++ ctx := rfl

theorem gen_comm_eq (ctx uid : List Char) :
    generate_key (some commTag) ctx uid = preComm ++ (ctx ++ (usc ++ uid)) := rfl

theorem preComm_eq : preComm = pre13 ++ commMark := rfl

theorem pre13_len : pre13.length = 13 := rfl

theorem preComm_len : preComm.length = 18 := rfl

theorem usc_len : usc.length = 1 := rfl

theorem prefix_append_cancel {p a b : List Char} :
    List.IsPrefix (p ++ a) (p ++ b) ↔ List.IsPrefix a b := by
  constructor
  · rintro ⟨t, ht⟩
    rw [List.append_assoc] at ht
    exact ⟨t, List.append_cancel_left ht⟩
  · rintro ⟨t, ht⟩
    exact ⟨t, by rw [List.append_assoc, ht]⟩

theorem prefix_eq_of_length {a b c : List Char}
    (h : List.IsPrefix a (b ++ c)) (hl : a.length = b.length) : a = b := by
  obtain ⟨t, ht⟩ := h
  exact (List.append_inj ht hl).1

/-- A 16-character hexadecimal context id can never be a prefix of a string
starting with `'comm_'` (its second character would have to be `'o'`). -/
theorem hex_not_prefix_comm {ctx : List Char} (r : List Char) (hlen : 2 ≤ ctx.length)
    (hhex : ctx.all isHexDigit = true) : ¬ List.IsPrefix ctx (commMark ++ r) := by
  rintro ⟨t, ht⟩
  have hcm : commMark ++ r = 'c' :: 'o' :: 'm' :: 'm' :: '_' :: r := rfl
  rw [hcm] at ht
  cases ctx with
  | nil => simp at hlen
  | cons c0 tl =>
    cases tl with
    | nil => simp at hlen
    | cons c1 tl2 =>
      rw [List.cons_append, List.cons_append] at ht
      injection ht with h0 ht'
      injection ht' with h1 ht''
      simp only [List.all_cons, Bool.and_eq_true] at hhex
      rw [h1] at hhex
      exact absurd hhex.2.1 (by decide)

/-- A string starting with `'comm_'` can never be a prefix of a string
starting with a 16-character hexadecimal context id. -/
theorem commMark_append_not_prefix {ctx : List Char} (s r : List Char) (hlen : 2 ≤ ctx.length)
    (hhex : ctx.all isHexDigit = true) : ¬ List.IsPrefix (commMark ++ s) (ctx ++ r) := by
  rintro ⟨t, ht⟩
  rw [List.append_assoc] at ht
  have hcm : commMark ++ (s ++ t) = 'c' :: 'o' :: 'm' :: 'm' :: '_' :: (s ++ t) := rfl
  rw [hcm] at ht
  cases ctx with
  | nil => simp at hlen
  | cons c0 tl =>
    cases tl with
    | nil => simp at hlen
    | cons c1 tl2 =>
      rw [List.cons_append, List.cons_append] at ht
      injection ht with h0 ht'
      injection ht' with h1 ht''
      simp only [List.all_cons, Bool.and_eq_true] at hhex
      rw [← h1] at hhex
      exact absurd hhex.2.1 (by decide)

theorem isPrefixOf_eq_false_of_not {a b : List Char} (h : ¬ List.IsPrefix a b) :
    a.isPrefixOf b = false := by
  rw [Bool.eq_false_iff]
  intro hc
  exact h (List.isPrefixOf_iff_prefix.mp hc)

theorem ownHdr_not_prefix_commKey {ctx : List Char} (ctx2 uid : List Char)
    (hlen : ctx.length = 16) (hhex : ctx.all isHexDigit = true) :
    ¬ List.IsPrefix (key_header none ctx) (generate_key (some commTag) ctx2 uid) := by
  rw [hdr_none_eq, gen_comm_eq, preComm_eq, List.append_assoc, prefix_append_cancel]
  exact hex_not_prefix_comm _ (by omega) hhex

theorem ownHdr_not_prefix_otherOrd {ctx ctxB : List Char} (uid : List Char)
    (hlen : ctx.length = 16) (hlenB : ctxB.length = 16) (hne : ctxB ≠ ctx) :
    ¬ List.IsPrefix (key_header none ctx) (generate_key none ctxB uid) := by
  rw [hdr_none_eq, gen_none_eq, prefix_append_cancel]
  intro h
  exact hne (prefix_eq_of_length h (by omega)).symm

theorem commHdr_not_prefix_otherComm {ctx ctxB : List Char} (uid : List Char)
    (hlen : ctx.length = 16) (hlenB : ctxB.length = 16) (hne : ctxB ≠ ctx) :
    ¬ List.IsPrefix (key_header (some commTag) ctx) (generate_key (some commTag) ctxB uid) := by
  rw [hdr_comm_eq, gen_comm_eq, prefix_append_cancel]
  intro h
  exact hne (prefix_eq_of_length h (by omega)).symm

theorem commHdr_not_prefix_ord {ctx ctxC : List Char} (uid : List Char)
    (hlenC : ctxC.length = 16) (hhexC : ctxC.all isHexDigit = true) :
    ¬ List.IsPrefix (key_header (some commTag) ctx) (generate_key none ctxC uid) := by
  rw [hdr_comm_eq, preComm_eq, gen_none_eq, List.append_assoc, prefix_append_cancel]
  exact commMark_append_not_prefix _ _ (by omega) hhexC

theorem ownHdr_prefix_ownOrd (ctx uid : List Char) :
    (key_header none ctx).isPrefixOf (generate_key none ctx uid) = true :=
  List.isPrefixOf_iff_prefix.mpr ⟨usc ++ uid, rfl⟩

theorem commHdr_prefix_ownComm (ctx uid : List Char) :
    (key_header (some commTag) ctx).isPrefixOf (generate_key (some commTag) ctx uid) = true :=
  List.isPrefixOf_iff_prefix.mpr ⟨usc ++ uid, rfl⟩

theorem base_prefix_ord (ctxC uid : List Char) :
    (key_base none).isPrefixOf (generate_key none ctxC uid) = true :=
  List.isPrefixOf_iff_prefix.mpr
    ⟨(usc ++ ctxC) ++ (usc ++ uid), by
      simp [generate_key, key_header, key_base, List.append_assoc]⟩

theorem base_prefix_comm (ctxB uid : List Char) :
    (key_base none).isPrefixOf (generate_key (some commTag) ctxB uid) = true :=
  List.isPrefixOf_iff_prefix.mpr
    ⟨(usc ++ commTag) ++ ((usc ++ ctxB) ++ (usc ++ uid)), by
      simp [generate_key, key_header, key_base, List.append_assoc]⟩

/-- C2: keys generated by two live contexts with distinct 16-character
context ids never collide, whether or not either key carries the reserved
`'comm'` prefix; the fixed-width context-id component alone separates them. -/
theorem distinct_contexts_never_collide
    (ctxA ctxB uidA uidB : List Char) (pA pB : Option (List Char))
    (hA : ctxA.length = 16) (hB : ctxB.length = 16)
    (huA : uidA.length = 32) (huB : uidB.length = 32)
    (hpA : pA = none ∨ pA = some commTag) (hpB : pB = none ∨ pB = some commTag)
    (hne : ctxA ≠ ctxB) :
    generate_key pA ctxA uidA ≠ generate_key pB ctxB uidB := by
  rcases hpA with h | h <;> subst h <;> rcases hpB with h' | h' <;> subst h' <;> intro he
  · rw [gen_none_eq, gen_none_eq] at he
    exact hne (List.append_inj (List.append_cancel_left he) (by omega)).1
  · have hl := congrArg List.length he
    rw [gen_none_eq, gen_comm_eq] at hl
    simp only [List.length_append, pre13_len, preComm_len, usc_len, hA, hB, huA, huB] at hl
    omega
  · have hl := congrArg List.length he
    rw [gen_comm_eq, gen_none_eq] at hl
    simp only [List.length_append, pre13_len, preComm_len, usc_len, hA, hB, huA, huB] at hl
    omega
  · rw [gen_comm_eq, gen_comm_eq] at he
    exact hne (List.append_inj (List.append_cancel_left he) (by omega)).1

/-- A sample 16-character hexadecimal context id. -/
def ctxB0 : List Char := "bbbbbbbbbbbbbbbb".toList

/-- A sample 32-character random key suffix. -/
def uid0 : List Char := "cccccccccccccccccccccccccccccccc".toList

/-- A second sample 32-character random key suffix. -/
def uidD0 : List Char := "dddddddddddddddddddddddddddddddd".toList

/-- Witness for C2 at concrete inputs. -/
theorem distinct_contexts_never_collide_witness :
    generate_key none hexChars uid0 ≠ generate_key (some commTag) ctxB0 uidD0 :=
  distinct_contexts_never_collide hexChars ctxB0 uid0 uidD0 none (some commTag)
    (by decide) (by decide) (by decide) (by decide) (Or.inl rfl) (Or.inr rfl) (by decide)

/-- `Context.purge_keys(prefix=None, all_contexts=False)`: the command sent to
every engine deletes each global name starting with
`self._key_header(None)`; the surviving namespace is the filter below. -/
def purge_own (ctx : List Char) (ns : List (List Char)) : List (List Char) :=
  ns.filter (fun k => ! (key_header none ctx).isPrefixOf k)

theorem mem_purge_own {ctx : List Char} {ns : List (List Char)} {k : List Char} :
    k ∈ purge_own ctx ns ↔ k ∈ ns ∧ (key_header none ctx).isPrefixOf k = false := by
  unfold purge_own
  rw [List.mem_filter]
  constructor
  · rintro ⟨h1, h2⟩
    exact ⟨h1, by simpa using h2⟩
  · rintro ⟨h1, h2⟩
    exact ⟨h1, by simp [h2]⟩

/-- C3: `purge_keys(all_contexts=False)` deletes exactly the globals carrying
this context's un-prefixed header; every other context's ordinary and comm
keys survive, this context's own comm key survives, and a second purge of the
already-purged namespace changes nothing. -/
theorem purge_own_exact (ctx : List Char) (ns : List (List Char))
    (hlen : ctx.length = 16) (hhex : ctx.all isHexDigit = true) :
    (∀ k ∈ ns, (key_header none ctx).isPrefixOf k = true → k ∉ purge_own ctx ns)
    ∧ (∀ k ∈ ns, (key_header none ctx).isPrefixOf k = false → k ∈ purge_own ctx ns)
    ∧ (∀ ctxB uid, generate_key (some commTag) ctxB uid ∈ ns →
        generate_key (some commTag) ctxB uid ∈ purge_own ctx ns)
    ∧ (∀ ctxB uid, ctxB.length = 16 → ctxB ≠ ctx → generate_key none ctxB uid ∈ ns →
        generate_key none ctxB uid ∈ purge_own ctx ns)
    ∧ purge_own ctx (purge_own ctx ns) = purge_own ctx ns := by
  refine ⟨?_, ?_, ?_, ?_, ?_⟩
  · intro k hk hpre hmem
    rw [mem_purge_own] at hmem
    rw [hmem.2] at hpre
    exact absurd hpre (by decide)
  · intro k hk hpre
    exact mem_purge_own.mpr ⟨hk, hpre⟩
  · intro ctxB uid hmem
    exact mem_purge_own.mpr
      ⟨hmem, isPrefixOf_eq_false_of_not (ownHdr_not_prefix_commKey ctxB uid hlen hhex)⟩
  · intro ctxB uid hlenB hne hmem
    exact mem_purge_own.mpr
      ⟨hmem, isPrefixOf_eq_false_of_not (ownHdr_not_prefix_otherOrd uid hlen hlenB hne)⟩
  · unfold purge_own
    rw [List.filter_filter]
    simp

/-- A sample namespace: one ordinary key and the comm key of context
`hexChars`, plus the comm key of context `ctxB0`. -/
def ns0 : List (List Char) :=
  [generate_key none hexChars uid0,
   generate_key (some commTag) hexChars uid0,
   generate_key (some commTag) ctxB0 uidD0]

/-- Witness for C3 at concrete inputs. -/
theorem purge_own_exact_witness :
    (generate_key (some commTag) hexChars uid0 ∈ purge_own hexChars ns0)
    ∧ (generate_key (some commTag) ctxB0 uidD0 ∈ purge_own hexChars ns0)
    ∧ purge_own hexChars (purge_own hexChars ns0) = purge_own hexChars ns0 :=
  ⟨(purge_own_exact hexChars ns0 (by decide) (by decide)).2.2.1 hexChars uid0 (by decide),
   (purge_own_exact hexChars ns0 (by decide) (by decide)).2.2.1 ctxB0 uidD0 (by decide),
   (purge_own_exact hexChars ns0 (by decide) (by decide)).2.2.2.2⟩

/-- `Context.purge_keys(prefix=None, all_contexts=True)`: the command sent to
every engine deletes each global name starting with the shared base
`self._key_base(None)` unless it starts with this context's own comm header
`self._key_header('comm')`. -/
def purge_all (ctx : List Char) (ns : List (List Char)) : List (List Char) :=
  ns.filter (fun k =>
    ! ((key_base none).isPrefixOf k && ! (key_header (some commTag) ctx).isPrefixOf k))

theorem mem_purge_all {ctx : List Char} {ns : List (List Char)} {k : List Char} :
    k ∈ purge_all ctx ns ↔ k ∈ ns ∧
      ¬ ((key_base none).isPrefixOf k = true
         ∧ (key_header (some commTag) ctx).isPrefixOf k = false) := by
  unfold purge_all
  rw [List.mem_filter]
  constructor
  · rintro ⟨h1, h2⟩
    refine ⟨h1, ?_⟩
    rintro ⟨hb, hc⟩
    rw [hb, hc] at h2
    exact absurd h2 (by decide)
  · rintro ⟨h1, h2⟩
    refine ⟨h1, ?_⟩
    rcases hb : (key_base none).isPrefixOf k with _ | _
    · simp [hb]
    · rcases hc : (key_header (some commTag) ctx).isPrefixOf k with _ | _
      · exact absurd ⟨hb, hc⟩ h2
      · simp [hb, hc]

/-- C4 counterexample: in `all_contexts` mode, another live context's
reserved group-handle key does NOT survive the sweep — the purge of context
`hexChars` deletes the comm key of context `ctxB0` even though the two
context ids differ. -/
theorem purge_all_deletes_other_comm_key :
    ctxB0 ≠ hexChars
    ∧ generate_key (some commTag) ctxB0 uidD0
        ∈ [generate_key (some commTag) ctxB0 uidD0]
    ∧ purge_all hexChars [generate_key (some commTag) ctxB0 uidD0] = [] := by
  decide

/-- C4 amended: the `all_contexts` purge deletes every key starting with the
shared base tag except those starting with the purging context's OWN comm
header: the purging context's group-handle key survives, while every other
context's group-handle key and every context's ordinary keys are deleted. -/
theorem purge_all_spares_only_own_comm (ctx : List Char) (ns : List (List Char))
    (hlen : ctx.length = 16) (_hhex : ctx.all isHexDigit = true) :
    (∀ uid, generate_key (some commTag) ctx uid ∈ ns →
        generate_key (some commTag) ctx uid ∈ purge_all ctx ns)
    ∧ (∀ ctxB uid, ctxB.length = 16 → ctxB ≠ ctx →
        generate_key (some commTag) ctxB uid ∉ purge_all ctx ns)
    ∧ (∀ ctxC uid, ctxC.length = 16 → ctxC.all isHexDigit = true →
        generate_key none ctxC uid ∉ purge_all ctx ns) := by
  refine ⟨?_, ?_, ?_⟩
  · intro uid hmem
    refine mem_purge_all.mpr ⟨hmem, ?_⟩
    rintro ⟨hb, hc⟩
    rw [commHdr_prefix_ownComm ctx uid] at hc
    exact absurd hc (by decide)
  · intro ctxB uid hlenB hne hmem
    rcases mem_purge_all.mp hmem with ⟨-, h2⟩
    exact h2 ⟨base_prefix_comm ctxB uid,
      isPrefixOf_eq_false_of_not (commHdr_not_prefix_otherComm uid hlen hlenB hne)⟩
  · intro ctxC uid hlenC hhexC hmem
    rcases mem_purge_all.mp hmem with ⟨-, h2⟩
    exact h2 ⟨base_prefix_ord ctxC uid,
      isPrefixOf_eq_false_of_not (commHdr_not_prefix_ord uid hlenC hhexC)⟩

/-- Witness for the amended C4 at concrete inputs. -/
theorem purge_all_spares_only_own_comm_witness :
    (generate_key (some commTag) hexChars uid0 ∈ purge_all hexChars ns0)
    ∧ generate_key (some commTag) ctxB0 uidD0 ∉ purge_all hexChars ns0
    ∧ generate_key none hexChars uid0 ∉ purge_all hexChars ns0 :=
  ⟨(purge_all_spares_only_own_comm hexChars ns0 (by decide) (by decide)).1 uid0 (by decide),
   (purge_all_spares_only_own_comm hexChars ns0 (by decide) (by decide)).2.1 ctxB0 uidD0
     (by decide) (by decide),
   (purge_all_spares_only_own_comm hexChars ns0 (by decide) (by decide)).2.2 hexChars uid0
     (by decide) (by decide)⟩

/-- One remote operation issued through the IPython view. -/
inductive RemoteOp where
  /-- `view.execute('import distarray.local; ...')` in `Context.__init__`. -/
  | importExec
  /-- `view.apply_async(get_rank)` in `Context._make_intracomm`. -/
  | applyGetRank
  /-- `view.apply_async(get_size)` in `Context._make_intracomm`. -/
  | applyGetSize
  /-- `view.execute('<comm_key> = distarray.mpiutils.create_comm_with_list(<ranks>)')`. -/
  | createComm (ranks : List Nat)
  /-- The `purge_keys` loop command, parameterised by the header it filters on. -/
  | purgeCmd (hdr : List Char)
  /-- `view.execute('del <txt>')` issued by `Context.delete_key`. -/
  | delCmd (txt : List Char)
  /-- `view.push` of `n` freshly generated keys (`Context._key_and_push`). -/
  | pushVals (n : Nat)
  /-- The `distarray.local.save(...)` execute in `Context.save`. -/
  | saveExec
  /-- The `distarray.local.load*(...)` execute in `Context.load` / `load_npy` / `load_hdf5`. -/
  | loadExec
  /-- The `distarray.local.<binary op>` execute in `binary_proxy`. -/
  | binExec
  /-- The `distarray.local.<unary op>` execute in `unary_proxy`. -/
  | unExec
  deriving DecidableEq

/-- Python's `str(None)`, as interpolated into `'del %s' % key`. -/
def pyNone : List Char := "None".toList

/-- The literal `'del '` opening the deletion command. -/
def delWord : List Char := "del ".toList

/-- `'%s' % key` for `key` a string or `None`. -/
def pyStr (k : Option (List Char)) : List Char :=
  match k with
  | none => pyNone
  | some s => s

/-- `Context.delete_key(key)`: executes `'del %s' % key` on the engines. -/
def delete_key (k : Option (List Char)) : RemoteOp :=
  RemoteOp.delCmd (delWord ++ pyStr k)

/-- The `_comm_key`-related state of a `Context`: whether the attribute
`_comm_key` exists at all (`hasattr(self, '_comm_key')`) and its value
(`none` models Python `None`). -/
structure CtxKeys where
  hasCommAttr : Bool
  commKey : Option (List Char)
  deriving DecidableEq

/-- `Context._cleanup_keys`: purge ordinary keys first, then, if the
attribute `_comm_key` exists, delete it and set it to `None` (the attribute
itself continues to exist).  Returns the new state and the remote operations
issued, in order. -/
def cleanup_keys (ctx : List Char) (st : CtxKeys) : CtxKeys × List RemoteOp :=
  if st.hasCommAttr then
    (⟨true, none⟩, [RemoteOp.purgeCmd (key_header none ctx), delete_key st.commKey])
  else
    (st, [RemoteOp.purgeCmd (key_header none ctx)])

/-- C5: evaluating teardown twice.  The first `_cleanup_keys` purges the
ordinary keys and then deletes the comm key last, but because it leaves the
`_comm_key` attribute in place (merely set to `None`), the second call again
passes the `hasattr` guard and issues `del None` to the engines — a failing
statement, not a no-op. -/
theorem cleanup_keys_second_call_emits_del_None :
    (cleanup_keys hexChars ⟨true, some (generate_key (some commTag) hexChars uid0)⟩).2
      = [RemoteOp.purgeCmd (key_header none hexChars),
         RemoteOp.delCmd (delWord ++ generate_key (some commTag) hexChars uid0)]
    ∧ (cleanup_keys hexChars
        (cleanup_keys hexChars
          ⟨true, some (generate_key (some commTag) hexChars uid0)⟩).1).2
      = [RemoteOp.purgeCmd (key_header none hexChars),
         RemoteOp.delCmd (delWord ++ pyNone)] := by
  decide

/-- Lexicographic-by-code-point order on key names, Python's string `<=`. -/
def keyLe : List Char → List Char → Bool
  | [], _ => true
  | _ :: _, [] => false
  | a :: as, b :: bs => if a = b then keyLe as bs else decide (a < b)

/-- Insert into a sorted list of key names. -/
def insertKey (x : List Char) : List (List Char) → List (List Char)
  | [] => [x]
  | y :: ys => if keyLe x y then x :: y :: ys else y :: insertKey x ys

/-- Python's `sorted(...)` over key names. -/
def sortKeys : List (List Char) → List (List Char)
  | [] => []
  | x :: xs => insertKey x (sortKeys xs)

theorem mem_insertKey {x a : List Char} {l : List (List Char)} :
    a ∈ insertKey x l ↔ a = x ∨ a ∈ l := by
  induction l with
  | nil => simp [insertKey]
  | cons y ys ih =>
    unfold insertKey
    split
    · rw [List.mem_cons, List.mem_cons]
    · rw [List.mem_cons, ih, List.mem_cons]
      tauto

theorem mem_sortKeys {a : List Char} {l : List (List Char)} :
    a ∈ sortKeys l ↔ a ∈ l := by
  induction l with
  | nil => simp [sortKeys]
  | cons x xs ih =>
    unfold sortKeys
    rw [mem_insertKey, ih, List.mem_cons]

/-- `Context.dump_keys(prefix=None, all_contexts)`: generates a fresh
context-prefixed scratch key, binds it on the engines to the list of global
names matching the header, pulls it, and returns the sorted listing.  The
scratch key is never deleted, so the engine namespace after the call is the
old one plus the scratch key (assignment binds the key after the listing has
been computed, so the listing itself is taken over the old namespace).
Returns `(listing, new namespace)`. -/
def dump_keys (ctx uid : List Char) (all_contexts : Bool) (ns : List (List Char)) :
    List (List Char) × List (List Char) :=
  let hdr := if all_contexts then key_base none else key_header none ctx
  let dump_key := generate_key none ctx uid
  (sortKeys (ns.filter (fun k => hdr.isPrefixOf k)), ns ++ [dump_key])

/-- C10: `dump_keys` is not read-only: each call binds one fresh
context-prefixed scratch key on the engines and leaves it there, growing the
live key set by one; the leftover key matches the context header, so it shows
up in a subsequent dump's listing and is swept by a subsequent own-context
purge. -/
theorem dump_keys_leaks_scratch_key (ctx uid uid2 : List Char) (ac : Bool)
    (ns : List (List Char)) (hfresh : generate_key none ctx uid ∉ ns) :
    generate_key none ctx uid ∉ ns
    ∧ (dump_keys ctx uid ac ns).2 = ns ++ [generate_key none ctx uid]
    ∧ ((dump_keys ctx uid ac ns).2).length = ns.length + 1
    ∧ generate_key none ctx uid ∈ (dump_keys ctx uid ac ns).2
    ∧ (key_header none ctx).isPrefixOf (generate_key none ctx uid) = true
    ∧ generate_key none ctx uid ∈ (dump_keys ctx uid2 false ((dump_keys ctx uid ac ns).2)).1
    ∧ generate_key none ctx uid ∉ purge_own ctx ((dump_keys ctx uid ac ns).2) := by
  refine ⟨hfresh, rfl, by simp [dump_keys], by simp [dump_keys],
    ownHdr_prefix_ownOrd ctx uid, ?_, ?_⟩
  · show generate_key none ctx uid ∈ sortKeys (List.filter _ (ns ++ [generate_key none ctx uid]))
    rw [mem_sortKeys, List.mem_filter]
    exact ⟨by simp, ownHdr_prefix_ownOrd ctx uid⟩
  · intro hmem
    rcases mem_purge_own.mp hmem with ⟨-, h2⟩
    rw [ownHdr_prefix_ownOrd ctx uid] at h2
    exact absurd h2 (by decide)

/-- Witness for C10 at concrete inputs. -/
theorem dump_keys_leaks_scratch_key_witness :
    (dump_keys hexChars uid0 false []).2 = [] ++ [generate_key none hexChars uid0]
    ∧ generate_key none hexChars uid0
        ∈ (dump_keys hexChars uidD0 false ((dump_keys hexChars uid0 false []).2)).1
    ∧ generate_key none hexChars uid0 ∉ purge_own hexChars ((dump_keys hexChars uid0 false []).2) :=
  ⟨(dump_keys_leaks_scratch_key hexChars uid0 uidD0 false [] (by decide)).2.1,
   (dump_keys_leaks_scratch_key hexChars uid0 uidD0 false [] (by decide)).2.2.2.2.2.1,
   (dump_keys_leaks_scratch_key hexChars uid0 uidD0 false [] (by decide)).2.2.2.2.2.2⟩

/-- The exceptions raised by the modelled code.  The spec's abstract error
taxonomy maps onto them as noted on each constructor. -/
inductive PyErr where
  /-- `ValueError('Engine with id %r not registered' % target)` in
  `Context.__init__` — the spec's `UnknownTargetError`, carrying the exact
  offending identifier. -/
  | unknownTarget (t : Nat)
  /-- `ValueError('Engines in view must encompass all MPI ranks.')` in
  `Context._make_intracomm` — the spec's `IncompleteGroupError`. -/
  | incompleteGroup
  /-- A Python `TypeError` with the given message; for descriptor-count
  mismatches this is the spec's `DescriptorCountMismatchError`. -/
  | typeError (msg : List Char)
  /-- `ValueError` with the given message (`binary_proxy` incompatibility). -/
  | valueError (msg : List Char)
  /-- `distarray.error.ContextError` raised by `determine_context`. -/
  | contextError
  /-- `ImportError` raised when h5py is unavailable. -/
  | importError (msg : List Char)
  deriving DecidableEq

/-- The target-validation loop of `Context.__init__`: walk the requested
targets in order, keeping pool members and raising on the first identifier
not registered with the view. -/
def validate_targets (all_targets : List Nat) : List Nat → Except PyErr (List Nat)
  | [] => Except.ok []
  | t :: ts =>
      if t ∈ all_targets then
        match validate_targets all_targets ts with
        | Except.ok rest => Except.ok (t :: rest)
        | Except.error e => Except.error e
      else Except.error (PyErr.unknownTarget t)

/-- `Context.__init__(client, targets)` up to its first remote operation:
resolve the target list (the whole pool when `targets is None`, else the
validated explicit list) and only then issue the import execute.  Returns the
remote operations issued, in order, next to the resolved targets or the
exception raised. -/
def context_init (all_targets : List Nat) (tgts : Option (List Nat)) :
    List RemoteOp × Except PyErr (List Nat) :=
  match tgts with
  | none => ([RemoteOp.importExec], Except.ok all_targets)
  | some ts =>
    match validate_targets all_targets ts with
    | Except.error e => ([], Except.error e)
    | Except.ok ts' => ([RemoteOp.importExec], Except.ok ts')

/-- The first requested target that is not a pool member, if any. -/
def firstBad (all_targets ts : List Nat) : Option Nat :=
  ts.find? (fun t => ! decide (t ∈ all_targets))

theorem validate_targets_error (all_targets ts : List Nat) (t0 : Nat)
    (h : firstBad all_targets ts = some t0) :
    validate_targets all_targets ts = Except.error (PyErr.unknownTarget t0) := by
  induction ts with
  | nil => simp [firstBad] at h
  | cons t ts' ih =>
    by_cases hm : t ∈ all_targets
    · have hfb : firstBad all_targets ts' = some t0 := by
        unfold firstBad at h ⊢
        rwa [List.find?_cons_of_neg _ (by simp [hm])] at h
      unfold validate_targets
      rw [if_pos hm, ih hfb]
    · have ht0 : t0 = t := by
        unfold firstBad at h
        rw [List.find?_cons_of_pos _ (by simp [hm])] at h
        exact (Option.some.injEq _ _ ▸ h).symm
      unfold validate_targets
      rw [if_neg hm, ht0]

/-- C7: when the explicit target list contains an identifier that is not a
pool member, `Context.__init__` raises `ValueError` naming the exact (first)
offending identifier, and no remote operation has been issued at that
point. -/
theorem unknown_target_rejected_before_remote_call
    (all_targets ts : List Nat) (t0 : Nat) (h : firstBad all_targets ts = some t0) :
    t0 ∈ ts ∧ t0 ∉ all_targets
    ∧ context_init all_targets (some ts)
        = ([], Except.error (PyErr.unknownTarget t0)) := by
  refine ⟨List.mem_of_find?_eq_some h, ?_, ?_⟩
  · have := List.find?_some h
    simpa using this
  · have hv := validate_targets_error all_targets ts t0 h
    simp [context_init, hv]

/-- Witness for C7 at concrete inputs: pool `[0, 1]`, request `[1, 2]`. -/
theorem unknown_target_rejected_before_remote_call_witness :
    (2 : Nat) ∈ [1, 2] ∧ (2 : Nat) ∉ [0, 1]
    ∧ context_init [0, 1] (some [1, 2])
        = ([], Except.error (PyErr.unknownTarget 2)) :=
  unknown_target_rejected_before_remote_call [0, 1] [1, 2] 2 (by decide)

/-- `dict.__getitem__` over an association list with distinct keys
(`rank_map[engine]`, `target_to_rank[...]`). -/
def dlookup (l : List (Nat × Nat)) (k : Nat) : Option Nat :=
  (l.find? (fun p => p.1 == k)).map (fun p => p.2)

/-- `Context._make_intracomm`: ask every engine of the view for its
`COMM_PRIVATE` rank (`rank_map`) and the communicator size, check that the
view's engines cover every MPI rank, and only then issue the collective
`create_comm_with_list` over the whole view with the selected targets'
ranks.  `rank_map` is the engine-to-rank dictionary discovered over ALL view
engines; `targets` is the selected subset. -/
def make_intracomm (rank_map : List (Nat × Nat)) (comm_size : Nat) (targets : List Nat) :
    List RemoteOp × Except PyErr Unit :=
  let ranks := targets.map (fun e => (dlookup rank_map e).getD 0)
  if (rank_map.map Prod.snd).toFinset = Finset.range comm_size then
    ([RemoteOp.applyGetRank, RemoteOp.applyGetSize, RemoteOp.createComm ranks],
     Except.ok ())
  else
    ([RemoteOp.applyGetRank, RemoteOp.applyGetSize], Except.error PyErr.incompleteGroup)

/-- C6 counterexample: the coverage check is over ALL view engines, not the
selected targets.  With a two-engine pool whose ranks cover `{0, 1}` and the
single selected target `10` (rank set `{0}` only), the claim's antecedent
holds — the selected targets do not span the full rank range — yet no error
is raised and the group-formation collective IS issued. -/
theorem incomplete_group_check_ignores_selection :
    ((([10] : List Nat).map (fun e => (dlookup [(10, 0), (11, 1)] e).getD 0)).toFinset
        ≠ Finset.range 2)
    ∧ (make_intracomm [(10, 0), (11, 1)] 2 [10]).2 = Except.ok ()
    ∧ RemoteOp.createComm [0] ∈ (make_intracomm [(10, 0), (11, 1)] 2 [10]).1 :=
  ⟨by decide, rfl, by decide⟩

/-- C6 amended: when the pool-wide ranks discovered across ALL engines of
the view (not the selected targets) do not cover `{0 … size-1}` exactly,
`_make_intracomm` raises `ValueError` (the spec's `IncompleteGroupError`)
and the group-formation collective is never issued. -/
theorem incomplete_group_raised_before_collective
    (rank_map : List (Nat × Nat)) (comm_size : Nat) (targets : List Nat)
    (h : (rank_map.map Prod.snd).toFinset ≠ Finset.range comm_size) :
    (make_intracomm rank_map comm_size targets).2 = Except.error PyErr.incompleteGroup
    ∧ ∀ ranks, RemoteOp.createComm ranks ∉ (make_intracomm rank_map comm_size targets).1 := by
  unfold make_intracomm
  rw [if_neg h]
  refine ⟨rfl, ?_⟩
  intro ranks hmem
  simp at hmem

/-- Witness for the amended C6 at concrete inputs. -/
theorem incomplete_group_raised_before_collective_witness :
    (make_intracomm [(0, 0)] 2 [0]).2 = Except.error PyErr.incompleteGroup
    ∧ RemoteOp.createComm [0] ∉ (make_intracomm [(0, 0)] 2 [0]).1 :=
  ⟨(incomplete_group_raised_before_collective [(0, 0)] 2 [0] (by decide)).1,
   (incomplete_group_raised_before_collective [(0, 0)] 2 [0] (by decide)).2 [0]⟩

/-- The `name` argument of `Context.save` / `Context.load`: a string, a list
of per-target strings, or something else. -/
inductive NameArg where
  | str (s : List Char)
  | list (names : List (List Char))
  | other
  deriving DecidableEq

/-- `'`name` must be the same length as `self.targets`.'` -/
def nameLenMsg : List Char := "`name` must be the same length as `self.targets`.".toList

/-- `'`name` must be a string or a list.'` -/
def nameKindMsg : List Char := "`name` must be a string or a list.".toList

/-- `'`dim_data_per_process` must contain a dim_data for every process.'` -/
def dimDataMsg : List Char :=
  "`dim_data_per_process` must contain a dim_data for every process.".toList

/-- `'An MPI-enabled h5py must be available to use load_hdf5.'` -/
def h5pyMsg : List Char := "An MPI-enabled h5py must be available to use load_hdf5.".toList

/-- `Context.save(name, da)`: with a string name, push it and execute the
per-rank save; with a list name, first check its length against
`self.targets` and raise `TypeError` before any push or execute on a
mismatch.  Returns the remote operations issued, in order, and the result. -/
def save (targets : List Nat) (nameArg : NameArg) :
    List RemoteOp × Except PyErr Unit :=
  match nameArg with
  | NameArg.str _ => ([RemoteOp.pushVals 1, RemoteOp.saveExec], Except.ok ())
  | NameArg.list names =>
      if names.length ≠ targets.length then
        ([], Except.error (PyErr.typeError nameLenMsg))
      else ([RemoteOp.pushVals 1, RemoteOp.saveExec], Except.ok ())
  | NameArg.other => ([], Except.error (PyErr.typeError nameKindMsg))

/-- `Context.load(name)`: `da_key = self._generate_key()` is local; with a
list name the length check precedes any push or execute. -/
def load (targets : List Nat) (nameArg : NameArg) :
    List RemoteOp × Except PyErr Unit :=
  match nameArg with
  | NameArg.str _ => ([RemoteOp.pushVals 1, RemoteOp.loadExec], Except.ok ())
  | NameArg.list names =>
      if names.length ≠ targets.length then
        ([], Except.error (PyErr.typeError nameLenMsg))
      else ([RemoteOp.pushVals 1, RemoteOp.loadExec], Except.ok ())
  | NameArg.other => ([], Except.error (PyErr.typeError nameKindMsg))

/-- `Context.load_npy(filename, dim_data_per_process)`: the per-process
descriptor count is checked against `self.targets` before any remote
operation. -/
def load_npy {α : Type} (targets : List Nat) (dim_data_per_process : List α) :
    List RemoteOp × Except PyErr Unit :=
  if targets.length ≠ dim_data_per_process.length then
    ([], Except.error (PyErr.typeError dimDataMsg))
  else
    ([RemoteOp.pushVals 2, RemoteOp.loadExec], Except.ok ())

/-- `Context.load_hdf5(filename, dim_data_per_process, ...)`: after the local
h5py availability check, the descriptor count is checked before any remote
operation. -/
def load_hdf5 {α : Type} (h5pyAvailable : Bool) (targets : List Nat)
    (dim_data_per_process : List α) : List RemoteOp × Except PyErr Unit :=
  if ¬ h5pyAvailable then
    ([], Except.error (PyErr.importError h5pyMsg))
  else if targets.length ≠ dim_data_per_process.length then
    ([], Except.error (PyErr.typeError dimDataMsg))
  else
    ([RemoteOp.pushVals 2, RemoteOp.pushVals 1, RemoteOp.loadExec], Except.ok ())

/-- C8: every save-style or load-style call given a per-target descriptor
list whose length differs from `len(self.targets)` raises `TypeError` (the
spec's `DescriptorCountMismatchError`) having issued no push and no remote
execution. -/
theorem descriptor_count_checked_before_remote_call {α : Type}
    (targets : List Nat) (names : List (List Char)) (dims : List α)
    (hn : names.length ≠ targets.length) (hd : dims.length ≠ targets.length) :
    save targets (NameArg.list names) = ([], Except.error (PyErr.typeError nameLenMsg))
    ∧ load targets (NameArg.list names) = ([], Except.error (PyErr.typeError nameLenMsg))
    ∧ load_npy targets dims = ([], Except.error (PyErr.typeError dimDataMsg))
    ∧ load_hdf5 true targets dims = ([], Except.error (PyErr.typeError dimDataMsg)) := by
  refine ⟨?_, ?_, ?_, ?_⟩
  · simp [save, hn]
  · simp [load, hn]
  · simp [load_npy, Ne.symm hd]
  · simp [load_hdf5, Ne.symm hd]

/-- Witness for C8 at concrete inputs: one target, empty descriptor lists. -/
theorem descriptor_count_checked_before_remote_call_witness :
    save [0] (NameArg.list []) = ([], Except.error (PyErr.typeError nameLenMsg))
    ∧ load [0] (NameArg.list []) = ([], Except.error (PyErr.typeError nameLenMsg))
    ∧ load_npy [0] ([] : List Nat) = ([], Except.error (PyErr.typeError dimDataMsg))
    ∧ load_hdf5 true [0] ([] : List Nat) = ([], Except.error (PyErr.typeError dimDataMsg)) :=
  descriptor_count_checked_before_remote_call [0] [] ([] : List Nat)
    (by decide) (by decide)

/-- An argument of a wrapped unary/binary array operation
(`distarray/dist/functions.py`): a `DistArray` (carrying its key, owning
context and distribution), a numpy scalar, or anything else. -/
inductive FArg where
  | da (key : List Char) (ctx : Nat) (dist : Nat)
  | scalar (v : Int)
  | other
  deriving DecidableEq

/-- `arg.context` for a `DistArray` argument, `none` otherwise. -/
def argContext : FArg → Option Nat
  | FArg.da _ c _ => some c
  | _ => none

/-- `'Function must take DistArray or Context objects.'` -/
def funcArgsMsg : List Char := "Function must take DistArray or Context objects.".toList

/-- `'distributions not compatible.'` -/
def distMsg : List Char := "distributions not compatible.".toList

/-- `'only DistArray or scalars are accepted'` -/
def scalarsMsg : List Char := "only DistArray or scalars are accepted".toList

/-- `determine_context(*args)`: collect the contexts of the `DistArray`
arguments; raise `TypeError` when there is none and `ContextError` when they
are not all equal. -/
def determine_context (args : List FArg) : Except PyErr Nat :=
  match args.filterMap argContext with
  | [] => Except.error (PyErr.typeError funcArgsMsg)
  | c :: rest =>
      if (c :: rest).count c = (c :: rest).length then Except.ok c
      else Except.error PyErr.contextError

/-- `binary_proxy(name)`'s `proxy_func(a, b)`: determine the context, sort
out the DistArray/scalar cases (checking distribution compatibility for two
DistArrays), and only then generate the result key and issue the remote
execute.  Returns the number of keys generated, the remote operations
issued, and the result. -/
def binary_proxy (compat : Nat → Nat → Bool) (a b : FArg) :
    Nat × List RemoteOp × Except PyErr Unit :=
  match determine_context [a, b] with
  | Except.error e => (0, [], Except.error e)
  | Except.ok _ =>
    match a, b with
    | FArg.da _ _ da, FArg.da _ _ db =>
        if compat da db = false then (0, [], Except.error (PyErr.valueError distMsg))
        else (1, [RemoteOp.binExec], Except.ok ())
    | FArg.da _ _ _, FArg.scalar _ =>
        (2, [RemoteOp.pushVals 1, RemoteOp.binExec], Except.ok ())
    | FArg.scalar _, FArg.da _ _ _ =>
        (2, [RemoteOp.pushVals 1, RemoteOp.binExec], Except.ok ())
    | _, _ => (0, [], Except.error (PyErr.typeError scalarsMsg))

/-- `unary_proxy(name)`'s `proxy_func(a)`: determine the context, then
generate the result key and issue the remote execute. -/
def unary_proxy (a : FArg) : Nat × List RemoteOp × Except PyErr Unit :=
  match determine_context [a] with
  | Except.error e => (0, [], Except.error e)
  | Except.ok _ => (1, [RemoteOp.unExec], Except.ok ())

/-- C9: the wrapped operations validate before any effect — no `DistArray`
argument gives `TypeError`, two `DistArray`s from different contexts give
`ContextError`, and two `DistArray`s with incompatible distributions give
`ValueError`, each with zero keys generated and zero remote operations
issued. -/
theorem proxy_validation_before_keygen (compat : Nat → Nat → Bool) :
    (∀ a, argContext a = none →
        unary_proxy a = (0, [], Except.error (PyErr.typeError funcArgsMsg)))
    ∧ (∀ a b, argContext a = none → argContext b = none →
        binary_proxy compat a b = (0, [], Except.error (PyErr.typeError funcArgsMsg)))
    ∧ (∀ ka ca da kb cb db, ca ≠ cb →
        binary_proxy compat (FArg.da ka ca da) (FArg.da kb cb db)
          = (0, [], Except.error PyErr.contextError))
    ∧ (∀ ka ca da kb db, compat da db = false →
        binary_proxy compat (FArg.da ka ca da) (FArg.da kb ca db)
          = (0, [], Except.error (PyErr.valueError distMsg))) := by
  refine ⟨?_, ?_, ?_, ?_⟩
  · intro a h
    unfold unary_proxy determine_context
    simp [List.filterMap, h]
  · intro a b ha hb
    unfold binary_proxy determine_context
    simp [List.filterMap, ha, hb]
  · intro ka ca da kb cb db hne
    unfold binary_proxy determine_context
    simp only [List.filterMap, argContext]
    have hc : List.count ca [ca, cb] = 1 := by
      simp [List.count_cons, hne, Ne.symm hne]
    simp [hc]
  · intro ka ca da kb db hcompat
    unfold binary_proxy determine_context
    simp only [List.filterMap, argContext]
    have hc : List.count ca [ca, ca] = 2 := by simp [List.count_cons]
    simp [hc, hcompat]

/-- Witness for C9 at concrete inputs. -/
theorem proxy_validation_before_keygen_witness :
    unary_proxy FArg.other = (0, [], Except.error (PyErr.typeError funcArgsMsg))
    ∧ binary_proxy (fun _ _ => false) (FArg.scalar 1) (FArg.scalar 2)
        = (0, [], Except.error (PyErr.typeError funcArgsMsg))
    ∧ binary_proxy (fun _ _ => false) (FArg.da [] 0 0) (FArg.da [] 1 0)
        = (0, [], Except.error PyErr.contextError)
    ∧ binary_proxy (fun _ _ => false) (FArg.da [] 0 0) (FArg.da [] 0 1)
        = (0, [], Except.error (PyErr.valueError distMsg)) :=
  ⟨(proxy_validation_before_keygen (fun _ _ => false)).1 FArg.other rfl,
   (proxy_validation_before_keygen (fun _ _ => false)).2.1 (FArg.scalar 1) (FArg.scalar 2)
     rfl rfl,
   (proxy_validation_before_keygen (fun _ _ => false)).2.2.1 [] 0 0 [] 1 0 (by decide),
   (proxy_validation_before_keygen (fun _ _ => false)).2.2.2 [] 0 0 [] 1 rfl⟩

/-- The Python dict comprehension `{v: k for (k, v) in target_to_rank.items()}`
of `Context._set_engine_rank_mapping`, looked up at rank `r`: later entries
overwrite earlier ones, so the lookup returns the key of the LAST pair whose
value is `r`. -/
def invlookup (l : List (Nat × Nat)) (r : Nat) : Option Nat :=
  (l.reverse.find? (fun p => p.2 == r)).map (fun p => p.1)

/-- `len(rank_to_target)`: the number of distinct ranks in the pulled
target-to-rank dictionary. -/
def nRanks (l : List (Nat × Nat)) : Nat := ((l.map Prod.snd).dedup).length

/-- `Context._set_engine_rank_mapping`, given the pulled target-to-rank
dictionary `t2r`: assert `set(self.targets) == set(target_to_rank)` and
`set(range(len(self.targets))) == set(rank_to_target)`, then reorder to
`[rank_to_target[i] for i in range(len(rank_to_target))]`.  A failed assert
is `none`. -/
def set_engine_rank_mapping (targets : List Nat) (t2r : List (Nat × Nat)) :
    Option (List Nat) :=
  if targets.toFinset = (t2r.map Prod.fst).toFinset
     ∧ Finset.range targets.length = (t2r.map Prod.snd).toFinset then
    some ((List.range (nRanks t2r)).map (fun i => (invlookup t2r i).getD 0))
  else none

theorem find?_eq_of_unique {l : List (Nat × Nat)} {p : Nat × Nat → Bool} {q : Nat × Nat}
    (hmem : q ∈ l) (hp : p q = true)
    (huniq : ∀ r ∈ l, p r = true → r = q) : l.find? p = some q := by
  induction l with
  | nil => cases hmem
  | cons x tl ih =>
    rcases List.mem_cons.mp hmem with h | h
    · subst h
      rw [List.find?_cons_of_pos _ hp]
    · by_cases hx : p x = true
      · have hxq : x = q := huniq x (List.mem_cons_self x tl) hx
        subst hxq
        rw [List.find?_cons_of_pos _ hp]
      · rw [List.find?_cons_of_neg _ hx]
        exact ih h (fun r hr hpr => huniq r (List.mem_cons_of_mem _ hr) hpr)

/-- In an association list with distinct keys, the key determines the value. -/
theorem keyFun_unique {l : List (Nat × Nat)} (h : (l.map Prod.fst).Nodup)
    {a b c : Nat} (h1 : (a, b) ∈ l) (h2 : (a, c) ∈ l) : b = c := by
  induction l with
  | nil => cases h1
  | cons x tl ih =>
    rw [List.map_cons, List.nodup_cons] at h
    rcases List.mem_cons.mp h1 with e1 | m1 <;> rcases List.mem_cons.mp h2 with e2 | m2
    · have he : (a, b) = (a, c) := e1.trans e2.symm
      simpa using congrArg Prod.snd he
    · exfalso
      have hx1 : x.1 = a := by rw [← e1]
      exact h.1 (by rw [hx1]; exact List.mem_map_of_mem Prod.fst m2)
    · exfalso
      have hx1 : x.1 = a := by rw [← e2]
      exact h.1 (by rw [hx1]; exact List.mem_map_of_mem Prod.fst m1)
    · exact ih h.2 m1 m2

/-- In an association list with distinct values, the value determines the key. -/
theorem valFun_unique {l : List (Nat × Nat)} (h : (l.map Prod.snd).Nodup)
    {a b c : Nat} (h1 : (a, c) ∈ l) (h2 : (b, c) ∈ l) : a = b := by
  induction l with
  | nil => cases h1
  | cons x tl ih =>
    rw [List.map_cons, List.nodup_cons] at h
    rcases List.mem_cons.mp h1 with e1 | m1 <;> rcases List.mem_cons.mp h2 with e2 | m2
    · have he : (a, c) = (b, c) := e1.trans e2.symm
      simpa using congrArg Prod.fst he
    · exfalso
      have hx2 : x.2 = c := by rw [← e1]
      exact h.1 (by rw [hx2]; exact List.mem_map_of_mem Prod.snd m2)
    · exfalso
      have hx2 : x.2 = c := by rw [← e2]
      exact h.1 (by rw [hx2]; exact List.mem_map_of_mem Prod.snd m1)
    · exact ih h.2 m1 m2

theorem dlookup_eq {l : List (Nat × Nat)} (hk : (l.map Prod.fst).Nodup)
    {a b : Nat} (hm : (a, b) ∈ l) : dlookup l a = some b := by
  have huniq : ∀ r ∈ l, (r.1 == a) = true → r = (a, b) := by
    rintro ⟨r1, r2⟩ hr hpr
    rw [beq_iff_eq] at hpr
    subst hpr
    rw [keyFun_unique hk hr hm]
  have hf := find?_eq_of_unique hm (by simp) huniq
  unfold dlookup
  rw [hf]
  rfl

theorem invlookup_eq {l : List (Nat × Nat)} (hv : (l.map Prod.snd).Nodup)
    {a b : Nat} (hm : (a, b) ∈ l) : invlookup l b = some a := by
  have hm' : (a, b) ∈ l.reverse := List.mem_reverse.mpr hm
  have huniq : ∀ r ∈ l.reverse, (r.2 == b) = true → r = (a, b) := by
    rintro ⟨r1, r2⟩ hr hpr
    rw [beq_iff_eq] at hpr
    subst hpr
    rw [valFun_unique hv (List.mem_reverse.mp hr) hm]
  have hf := find?_eq_of_unique hm' (by simp) huniq
  unfold invlookup
  rw [hf]
  rfl

/-- C1: if the consistency asserts of `_set_engine_rank_mapping` pass, the
reordered target list has the original length, `targets[i]` is exactly the
engine whose pulled intracomm rank is `i` for every `i`, the reordered list
is a permutation of the original targets, and the pulled target-to-rank
mapping is a bijection onto `{0 … n-1}` (distinct keys, distinct ranks,
rank set exactly `range n`) — i.e. the asserts verify bijectivity before the
context is returned. -/
theorem targets_aligned_with_intracomm_ranks
    (targets : List Nat) (t2r : List (Nat × Nat)) (newT : List Nat)
    (hnd : targets.Nodup) (hkeys : (t2r.map Prod.fst).Nodup)
    (hres : set_engine_rank_mapping targets t2r = some newT) :
    newT.length = targets.length
    ∧ (∀ i, ∀ hi : i < newT.length, dlookup t2r (newT.get ⟨i, hi⟩) = some i)
    ∧ newT.Nodup
    ∧ newT.toFinset = targets.toFinset
    ∧ (t2r.map Prod.snd).Nodup
    ∧ (t2r.map Prod.snd).toFinset = Finset.range targets.length := by
  unfold set_engine_rank_mapping at hres
  split at hres
  case isFalse => exact absurd hres (by simp)
  case isTrue hcond =>
  obtain ⟨hc1, hc2⟩ := hcond
  rw [Option.some.injEq] at hres
  have hcard1 := List.toFinset_card_of_nodup hkeys
  have hcard2 := List.toFinset_card_of_nodup hnd
  rw [← hc1] at hcard1
  have hfst_len : (t2r.map Prod.fst).length = targets.length := by omega
  have hlen_t2r : t2r.length = targets.length := by
    rw [← hfst_len, List.length_map]
  have hsnd_len : (t2r.map Prod.snd).length = targets.length := by
    rw [List.length_map]
    exact hlen_t2r
  have hsnd_card : (t2r.map Prod.snd).toFinset.card = targets.length := by
    rw [← hc2, Finset.card_range]
  have hsnd_nodup : (t2r.map Prod.snd).Nodup := by
    have hd : (t2r.map Prod.snd).dedup.length = targets.length := by
      rw [← List.card_toFinset]
      exact hsnd_card
    have heq := (List.dedup_sublist (t2r.map Prod.snd)).eq_of_length (by rw [hd, hsnd_len])
    exact List.dedup_eq_self.mp heq
  have hnr : nRanks t2r = targets.length := by
    unfold nRanks
    rw [← List.card_toFinset]
    exact hsnd_card
  have hexists : ∀ i < targets.length, ∃ t, (t, i) ∈ t2r := by
    intro i hi
    have hmem : i ∈ (t2r.map Prod.snd).toFinset := by
      rw [← hc2]
      exact Finset.mem_range.mpr hi
    rw [List.mem_toFinset] at hmem
    obtain ⟨⟨pa, pb⟩, hp, hpe⟩ := List.mem_map.mp hmem
    cases hpe
    exact ⟨pa, hp⟩
  have hfspec : ∀ i < targets.length, ((invlookup t2r i).getD 0, i) ∈ t2r := by
    intro i hi
    obtain ⟨t, ht⟩ := hexists i hi
    rw [invlookup_eq hsnd_nodup ht]
    simpa using ht
  have hlen_new : newT.length = targets.length := by
    rw [← hres]
    simp [hnr]
  have hnodup_new : newT.Nodup := by
    rw [← hres]
    refine List.Nodup.map_on ?_ (List.nodup_range _)
    intro x hx y hy hxy
    rw [List.mem_range, hnr] at hx hy
    have h1 := dlookup_eq hkeys (hfspec x hx)
    have h2 := dlookup_eq hkeys (hfspec y hy)
    rw [hxy] at h1
    exact Option.some.inj (h1.symm.trans h2)
  refine ⟨hlen_new, ?_, hnodup_new, ?_, hsnd_nodup, hc2.symm⟩
  · intro i hi
    have hi' : i < targets.length := by omega
    have hget : newT.get ⟨i, hi⟩ = (invlookup t2r i).getD 0 := by
      subst hres
      simp
    rw [hget]
    exact dlookup_eq hkeys (hfspec i hi')
  · refine Finset.eq_of_subset_of_card_le ?_ ?_
    · intro x hx
      rw [List.mem_toFinset, ← hres] at hx
      obtain ⟨i, hi, hfx⟩ := List.mem_map.mp hx
      rw [List.mem_range, hnr] at hi
      have hspec := hfspec i hi
      rw [hfx] at hspec
      rw [hc1, List.mem_toFinset]
      exact List.mem_map_of_mem Prod.fst hspec
    · rw [List.toFinset_card_of_nodup hnodup_new, hlen_new]
      omega

/-- Witness for C1 at concrete inputs: targets `[5, 7]` pulled ranks
`5 ↦ 1`, `7 ↦ 0`, reordered to `[7, 5]`. -/
theorem targets_aligned_with_intracomm_ranks_witness :
    set_engine_rank_mapping [5, 7] [(5, 1), (7, 0)] = some [7, 5]
    ∧ ([7, 5] : List Nat).length = ([5, 7] : List Nat).length
    ∧ ([7, 5] : List Nat).Nodup
    ∧ ([7, 5] : List Nat).toFinset = ([5, 7] : List Nat).toFinset := by
  have hres : set_engine_rank_mapping [5, 7] [(5, 1), (7, 0)] = some [7, 5] := by decide
  have h := targets_aligned_with_intracomm_ranks [5, 7] [(5, 1), (7, 0)] [7, 5]
    (by decide) (by decide) hres
  exact ⟨hres, h.1, h.2.2.1, h.2.2.2.1⟩

end DistArraySpec
